import Mathlib

/-!
Verification of the UMAC/RCAT pairs-trading decision engine
(`scripts/umacrcatpairstrader.py`) and its offline analytics loader
(`scripts/tradescsvtosharpe.py`).

The Python code is shallowly embedded below.  Prices, capital and all float
quantities are modelled as exact rationals (every IEEE double is a rational);
Python `int(x)` truncation toward zero is `pyInt`; a market-data or order call
that may raise is modelled by an `Option` input or a `Bool` success flag, with
the `try/except` control flow reproduced explicitly.  The float Z-score
`z = num / sqrt(var)` is carried as the exact pair `(num, var)`; each
comparison `z > t` in the code is embedded as the decidable `zscoreGT num var t`,
proved below (`zscoreGT_iff_real`) to coincide with the real-number comparison
`t < num / Real.sqrt var` whenever `0 < var`.
-/

/-- The five strategy parameters fixed in `UMACRCATPairsStrategy.__init__`
(lines 11–17). -/
structure StratConfig where
  hedge_ratio : ℚ
  lookback_period : ℕ
  entry_threshold : ℚ
  exit_threshold : ℚ
  max_position_size : ℤ
deriving DecidableEq

/-- The concrete parameter values from `__init__`: hedge ratio 1.389508,
lookback 20, entry threshold 1.4, exit threshold 0.2, max position 1000. -/
def defaultConfig : StratConfig :=
  { hedge_ratio := 1389508 / 1000000
    lookback_period := 20
    entry_threshold := 14 / 10
    exit_threshold := 2 / 10
    max_position_size := 1000 }

/-- The direction strings `'long_spread'` / `'short_spread'` stored in
`_shared_positions['trade_direction']`. -/
inductive TradeDirection where
  | long_spread
  | short_spread
deriving DecidableEq

/-- The class-level `_shared_positions` dict (line 8): signed share counts for
each leg, the in-trade flag and the direction tag (`None` ↦ `none`). -/
structure Positions where
  umac : ℤ
  rcat : ℤ
  in_trade : Bool
  trade_direction : Option TradeDirection
deriving DecidableEq

/-- The initial / reset value of `_shared_positions`
(lines 8 and 256): all zero, not in trade, no direction. -/
def initialPositions : Positions :=
  { umac := 0, rcat := 0, in_trade := false, trade_direction := none }

/-- The abstract position state of the spec's state machine, read off the
shared dict: `flat` when not in trade, otherwise the recorded direction. -/
inductive PosState where
  | flat
  | longSpread
  | shortSpread
deriving DecidableEq

/-- Map the shared dict onto the spec's three-state machine. -/
def posState (s : Positions) : PosState :=
  if s.in_trade = true then
    match s.trade_direction with
    | some .long_spread => .longSpread
    | some .short_spread => .shortSpread
    | none => .flat
  else .flat

/-- Python `int(x)` applied to a float: truncation toward zero. -/
def pyInt (q : ℚ) : ℤ := if 0 ≤ q then ⌊q⌋ else ⌈q⌉

/-- Order side of `order.algo_buy` / `order.algo_sell`. -/
inductive OrderSide where
  | buy
  | sell
deriving DecidableEq

/-- The `intent` keyword of an order call: `'init'` on entry, `'exit'` on
close. -/
inductive OrderIntent where
  | init
  | exit
deriving DecidableEq

/-- One submitted order: symbol, side, intent and the `order_quantity`
argument (`none` for the close calls, which pass no quantity). -/
structure Order where
  symbol : String
  side : OrderSide
  intent : OrderIntent
  quantity : Option ℤ
deriving DecidableEq

/-- Decides `num / sqrt var > t` (for `0 < var`) by comparing squares, so that
the float comparison `z_score > threshold` stays decidable over ℚ.
Justified by `zscoreGT_iff_real` below. -/
def zscoreGT (num var t : ℚ) : Bool :=
  if 0 ≤ t then decide (0 < num) && decide (t ^ 2 * var < num ^ 2)
  else decide (0 ≤ num) || decide (num ^ 2 < t ^ 2 * var)

/-- Decides `num / sqrt var < t` (for `0 < var`); see `zscoreLT_iff_real`. -/
def zscoreLT (num var t : ℚ) : Bool := zscoreGT (-num) var (-t)

/-- Position sizing shared verbatim by `enter_long_spread` (lines 161–164)
and `enter_short_spread` (lines 199–202): half the buying power per leg,
`umac_shares = min(max_position_size, int(available_capital / price))`,
`rcat_shares = int(umac_shares * hedge_ratio)`. -/
def entryShares (cfg : StratConfig) (buying_power current_umac : ℚ) : ℤ × ℤ :=
  let available_capital := buying_power / 2
  let umac_shares := min cfg.max_position_size (pyInt (available_capital / current_umac))
  (umac_shares, pyInt ((umac_shares : ℚ) * cfg.hedge_ratio))

/-- `enter_long_spread` (lines 154–191): long UMAC, short RCAT.  Orders and
the state update sit inside one `try`; `umacOrderOk` / `rcatOrderOk` say
whether the respective `algo_buy` / `algo_sell` call returned rather than
raised.  A raise skips everything after it (the `except` only logs), so the
shared state is written only when both calls succeed. -/
def enter_long_spread (cfg : StratConfig)
    (umac_current_price rcat_current_price buying_power : ℚ)
    (umacOrderOk rcatOrderOk : Bool) (s : Positions) : Positions × List Order :=
  let shares := entryShares cfg buying_power umac_current_price
  if 0 < shares.1 ∧ 0 < shares.2 then
    if umacOrderOk then
      if rcatOrderOk then
        ({ umac := shares.1, rcat := -shares.2, in_trade := true,
           trade_direction := some .long_spread },
         [⟨"UMAC", .buy, .init, some shares.1⟩, ⟨"RCAT", .sell, .init, some shares.2⟩])
      else (s, [⟨"UMAC", .buy, .init, some shares.1⟩])
    else (s, [])
  else (s, [])

/-- `enter_short_spread` (lines 193–223): short UMAC, long RCAT; sizing and
failure handling mirror `enter_long_spread`. -/
def enter_short_spread (cfg : StratConfig)
    (umac_current_price rcat_current_price buying_power : ℚ)
    (umacOrderOk rcatOrderOk : Bool) (s : Positions) : Positions × List Order :=
  let shares := entryShares cfg buying_power umac_current_price
  if 0 < shares.1 ∧ 0 < shares.2 then
    if umacOrderOk then
      if rcatOrderOk then
        ({ umac := -shares.1, rcat := shares.2, in_trade := true,
           trade_direction := some .short_spread },
         [⟨"UMAC", .sell, .init, some shares.1⟩, ⟨"RCAT", .buy, .init, some shares.2⟩])
      else (s, [⟨"UMAC", .sell, .init, some shares.1⟩])
    else (s, [])
  else (s, [])

/-- The close order for the UMAC leg (lines 236–243): sell a positive
position, buy back a negative one, nothing for a flat leg. -/
def closeOrdersUmac (s : Positions) : List Order :=
  if 0 < s.umac then [⟨"UMAC", .sell, .exit, none⟩]
  else if s.umac < 0 then [⟨"UMAC", .buy, .exit, none⟩]
  else []

/-- The close order for the RCAT leg (lines 246–253). -/
def closeOrdersRcat (s : Positions) : List Order :=
  if 0 < s.rcat then [⟨"RCAT", .sell, .exit, none⟩]
  else if s.rcat < 0 then [⟨"RCAT", .buy, .exit, none⟩]
  else []

/-- `close_positions` (lines 228–256).  The two close submissions and the
reset of `_shared_positions` sit in one `try`, the reset last; an order call
that raises jumps out, so the recorded state is reset to the initial dict only
when every required close call succeeded, and is left unchanged otherwise. -/
def close_positions (umacOrderOk rcatOrderOk : Bool) (s : Positions) :
    Positions × List Order :=
  if s.umac ≠ 0 ∧ umacOrderOk = false then (s, [])
  else if s.rcat ≠ 0 ∧ rcatOrderOk = false then (s, closeOrdersUmac s)
  else (initialPositions, closeOrdersUmac s ++ closeOrdersRcat s)

/-- `check_entry_signals` (lines 130–139): short the spread when
`z_score > entry_threshold`, long it when `z_score < -entry_threshold`.
The float `z_score` is the pair `(zNum, zVar)` with `z = zNum / sqrt zVar`. -/
def check_entry_signals (cfg : StratConfig) (zNum zVar : ℚ)
    (umac_current_price rcat_current_price buying_power : ℚ)
    (umacOrderOk rcatOrderOk : Bool) (s : Positions) : Positions × List Order :=
  if zscoreGT zNum zVar cfg.entry_threshold then
    enter_short_spread cfg umac_current_price rcat_current_price buying_power
      umacOrderOk rcatOrderOk s
  else if zscoreLT zNum zVar (-cfg.entry_threshold) then
    enter_long_spread cfg umac_current_price rcat_current_price buying_power
      umacOrderOk rcatOrderOk s
  else (s, [])

/-- `check_exit_signals` (lines 141–152): close a long spread when
`z_score > -exit_threshold`, a short spread when `z_score < exit_threshold`,
otherwise hold. -/
def check_exit_signals (cfg : StratConfig) (zNum zVar : ℚ)
    (umacOrderOk rcatOrderOk : Bool) (s : Positions) : Positions × List Order :=
  let should_exit :=
    (s.trade_direction = some TradeDirection.long_spread ∧
      zscoreGT zNum zVar (-cfg.exit_threshold) = true) ∨
    (s.trade_direction = some TradeDirection.short_spread ∧
      zscoreLT zNum zVar cfg.exit_threshold = true)
  if should_exit then close_positions umacOrderOk rcatOrderOk s else (s, [])

/-- The trading-logic dispatch of `execute_pairs_trading_logic`
(lines 124–128): entry signals when not in trade, exit signals otherwise. -/
def trading_logic_decision (cfg : StratConfig) (zNum zVar : ℚ)
    (umac_current_price rcat_current_price buying_power : ℚ)
    (umacOrderOk rcatOrderOk : Bool) (s : Positions) : Positions × List Order :=
  if s.in_trade = false then
    check_entry_signals cfg zNum zVar umac_current_price rcat_current_price
      buying_power umacOrderOk rcatOrderOk s
  else
    check_exit_signals cfg zNum zVar umacOrderOk rcatOrderOk s

/-- One decision cycle's immutable market-data snapshot: the daily close
histories returned by `md[...].bar.daily` (`none` when the call returns `None`
or raises) and the L1 last-tick prices (`none` when unavailable or raising). -/
structure MarketSnapshot where
  umacBars : Option (List ℚ)
  rcatBars : Option (List ℚ)
  umacL1 : Option ℚ
  rcatL1 : Option ℚ
deriving DecidableEq

/-- The spread history of lines 100–108: truncate both close histories to
their common trailing length `min_length` (`lst[-min_length:]`) and take
`umac - hedge_ratio * rcat` pointwise. -/
def alignedSpreads (cfg : StratConfig) (m : MarketSnapshot) : List ℚ :=
  match m.umacBars, m.rcatBars with
  | some umac_prices, some rcat_prices =>
    let min_length := min umac_prices.length rcat_prices.length
    let umac_recent := umac_prices.drop (umac_prices.length - min_length)
    let rcat_recent := rcat_prices.drop (rcat_prices.length - min_length)
    List.zipWith (fun a b => a - cfg.hedge_ratio * b) umac_recent rcat_recent
  | _, _ => []

/-- The data computed by lines 100–121 of `execute_pairs_trading_logic` when
no guard fires: spread history, current spread, `np.mean`, the square of
`np.std` (population variance, divisor `L`), and the two current prices. -/
structure SpreadStats where
  spread_history : List ℚ
  current_spread : ℚ
  spread_mean : ℚ
  spread_var : ℚ
  umac_current_price : ℚ
  rcat_current_price : ℚ
deriving DecidableEq

/-- Lines 63–121 of `execute_pairs_trading_logic`: fetch and validate both
histories (a `None` result, a history shorter than the lookback, or an
exception on `prices[-1]` each cause an early `return`, via the broad
`except` of line 92), take the last close as the current price unless a
positive L1 tick is available, recompute the length guard on `min_length`,
build the spread history and its statistics, and bail out when the spread's
standard deviation is zero.  `np.std` squared is the population variance
(divisor `L`), and `np.std(h) == 0` iff that variance is `0`, which is how the
line-117 guard is written here. -/
def spreadStatsPhase (cfg : StratConfig) (m : MarketSnapshot) : Option SpreadStats :=
  match m.umacBars with
  | none => none
  | some umac_prices =>
    if umac_prices.length < cfg.lookback_period then none
    else
      match umac_prices.getLast? with
      | none => none
      | some umac_last =>
        let umac_current_price :=
          match m.umacL1 with
          | some p => if 0 < p then p else umac_last
          | none => umac_last
        match m.rcatBars with
        | none => none
        | some rcat_prices =>
          if rcat_prices.length < cfg.lookback_period then none
          else
            match rcat_prices.getLast? with
            | none => none
            | some rcat_last =>
              let rcat_current_price :=
                match m.rcatL1 with
                | some p => if 0 < p then p else rcat_last
                | none => rcat_last
              let min_length := min umac_prices.length rcat_prices.length
              if min_length < cfg.lookback_period then none
              else
                let spread_history := alignedSpreads cfg m
                let current_spread :=
                  umac_current_price - cfg.hedge_ratio * rcat_current_price
                let spread_mean := spread_history.sum / (spread_history.length : ℚ)
                let spread_var :=
                  ((spread_history.map fun sp => (sp - spread_mean) ^ 2).sum) /
                    (spread_history.length : ℚ)
                if spread_var = 0 then none
                else
                  some ⟨spread_history, current_spread, spread_mean, spread_var,
                    umac_current_price, rcat_current_price⟩

/-- `execute_pairs_trading_logic` (lines 60–128) in full: the data/statistics
phase, then the entry/exit dispatch on the Z-score
`(current_spread - spread_mean) / sqrt spread_var`.  Every early `return`
leaves the shared positions unchanged and submits nothing. -/
def execute_pairs_trading_logic (cfg : StratConfig) (m : MarketSnapshot)
    (buying_power : ℚ) (umacOrderOk rcatOrderOk : Bool) (s : Positions) :
    Positions × List Order :=
  match spreadStatsPhase cfg m with
  | none => (s, [])
  | some st =>
    trading_logic_decision cfg (st.current_spread - st.spread_mean) st.spread_var
      st.umac_current_price st.rcat_current_price buying_power
      umacOrderOk rcatOrderOk s

/-- `np.mean` of a list of rationals: sum divided by length. -/
def listMean (l : List ℚ) : ℚ := l.sum / (l.length : ℚ)

/-- The square of `np.std(l)` with numpy's default `ddof=0`: mean squared
deviation, divisor `L`. -/
def popVar (l : List ℚ) : ℚ :=
  ((l.map fun x => (x - listMean l) ^ 2).sum) / (l.length : ℚ)

/-- The `ddof=1` sample variance the spec demands for the Z-score denominator
(divisor `L - 1`); written from the spec's words, to be compared with the
code's `popVar`. -/
def sampleVar (l : List ℚ) : ℚ :=
  ((l.map fun x => (x - listMean l) ^ 2).sum) / ((l.length - 1 : ℕ) : ℚ)

/-- The class-level trigger record: `_last_processed_date` (a calendar day,
modelled as ℕ, `None` ↦ `none`) and the `_execution_lock` flag
(lines 7 and 9). -/
structure TriggerState where
  last_processed_date : Option ℕ
  execution_lock : Bool
deriving DecidableEq

/-- Whether a timer firing ran the decision cycle or was skipped by the
same-day / in-progress guard. -/
inductive FireResult where
  | executed
  | skipped
deriving DecidableEq

/-- What one `on_timer` call produced: the guard's verdict, the trigger state
it left behind, and whether the next day's trigger was re-armed
(lines 53–55 re-arm only inside the guarded branch). -/
structure TimerOutcome where
  result : FireResult
  state : TriggerState
  rearmed : Bool
deriving DecidableEq

/-- Number of decision cycles a firing executed. -/
def execCount (r : FireResult) : ℕ :=
  match r with
  | .executed => 1
  | .skipped => 0

/-- `on_timer` (lines 32–58) for the coordinating (RCAT) instance's daily
timer.  The cycle runs only when `_last_processed_date != current_date` and
`_execution_lock` is clear; the lock is then set, the cycle runs inside
`try`, `_last_processed_date` is advanced only when the cycle did not raise
(`cycleOk`), and the `finally` clears the lock; the trigger is re-armed in the
same branch.  Otherwise the firing is a no-op (the `else` bodies held only
logging). -/
def on_timer (s : TriggerState) (current_date : ℕ) (cycleOk : Bool) : TimerOutcome :=
  if s.last_processed_date ≠ some current_date ∧ s.execution_lock = false then
    { result := .executed
      state :=
        { last_processed_date :=
            if cycleOk then some current_date else s.last_processed_date
          execution_lock := false }
      rearmed := true }
  else { result := .skipped, state := s, rearmed := false }

/-- One row of the trades CSV consumed by `load_and_process_trades`
(`tradescsvtosharpe.py`): symbol, entry/exit timestamps (seconds, modelled as
ℕ), signed entry share count, entry price, per-leg P&L and exit fees. -/
structure TradeRow where
  symbol : String
  entry_time : ℕ
  exit_time : ℕ
  entry_shares : ℤ
  entry_price : ℚ
  entry_pl : ℚ
  exit_fees : ℚ
deriving DecidableEq

/-- `pd.to_datetime(...).dt.date`: the calendar day of a timestamp (whole
days since the epoch). -/
def dateOf (t : ℕ) : ℕ := t / 86400

/-- One pairs session built by lines 35–55: its group date, the UMAC row's
entry/exit timestamps, net P&L after fees, deployed capital and the session
return (named `session_return`; the CSV column is `return`). -/
structure PairsSession where
  date : ℕ
  entry_date : ℕ
  exit_date : ℕ
  net_pl : ℚ
  capital_deployed : ℚ
  session_return : ℚ
deriving DecidableEq

/-- The distinct entry dates, ascending — the iteration order of
`df.groupby('entry_date_only')` (pandas sorts group keys). -/
def entryDates (rows : List TradeRow) : List ℕ :=
  ((rows.map fun r => dateOf r.entry_time).dedup).mergeSort (fun a b => a ≤ b)

/-- Session metrics of lines 35–55 for one date's UMAC and RCAT rows:
`net_pl = (entry_pl sums) - (exit_fees sums)`,
`capital = |entry_shares| * entry_price` summed over the legs, and
`return = net_pl / capital` guarded to `0` when the capital is not
positive. -/
def mkSession (d : ℕ) (umac rcat : TradeRow) : PairsSession :=
  let total_pl := umac.entry_pl + rcat.entry_pl
  let total_fees := umac.exit_fees + rcat.exit_fees
  let net_pl := total_pl - total_fees
  let umac_capital := ((|umac.entry_shares| : ℤ) : ℚ) * umac.entry_price
  let rcat_capital := ((|rcat.entry_shares| : ℤ) : ℚ) * rcat.entry_price
  let total_capital := umac_capital + rcat_capital
  { date := d
    entry_date := umac.entry_time
    exit_date := umac.exit_time
    net_pl := net_pl
    capital_deployed := total_capital
    session_return := if 0 < total_capital then net_pl / total_capital else 0 }

/-- The per-date body of the `groupby` loop (lines 27–55): the date's UMAC
rows and RCAT rows; a session is produced exactly when each filter holds a
single row (`len(...) == 1`), and the date is silently dropped otherwise. -/
def sessionForDate (rows : List TradeRow) (d : ℕ) : Option PairsSession :=
  let umac_trade := rows.filter fun r => dateOf r.entry_time == d && r.symbol == "UMAC"
  let rcat_trade := rows.filter fun r => dateOf r.entry_time == d && r.symbol == "RCAT"
  match umac_trade, rcat_trade with
  | [umac], [rcat] => some (mkSession d umac rcat)
  | _, _ => none

/-- `load_and_process_trades` (lines 15–61): group the ledger by entry date,
keep the dates with exactly one row per leg, and list the sessions by date.
(The final `sort_values('entry_date')` re-sorts by the UMAC entry timestamp;
session dates are distinct group keys and `dateOf` is monotone, so that order
is the ascending date order produced here.) -/
def load_and_process_trades (rows : List TradeRow) : List PairsSession :=
  (entryDates rows).filterMap (sessionForDate rows)

/-! ## Daily trigger coordination (claims C2, C8) -/

/-- C2: With the same trading day, a second firing after a first completed
cycle performs no decision cycle and is skipped (the first set
`_last_processed_date`), a firing made while an execution is in progress
(lock set) is skipped with the state untouched, and the two sequential
firings execute exactly one decision cycle in total. -/
theorem daily_trigger_idempotent (s : TriggerState) (d : ℕ) (ok2 : Bool)
    (hlock : s.execution_lock = false) (hday : s.last_processed_date ≠ some d) :
    (on_timer s d true).result = .executed ∧
    (on_timer s d true).state = ⟨some d, false⟩ ∧
    on_timer (on_timer s d true).state d ok2 =
      ⟨.skipped, (on_timer s d true).state, false⟩ ∧
    execCount (on_timer s d true).result +
      execCount (on_timer (on_timer s d true).state d ok2).result = 1 ∧
    (∀ t : TriggerState, t.execution_lock = true →
      on_timer t d ok2 = ⟨.skipped, t, false⟩) := by
  refine ⟨?_, ?_, ?_, ?_, fun t ht => ?_⟩ <;>
    simp [on_timer, hlock, hday, execCount, *]

/-- Witness for `daily_trigger_idempotent` at a fresh trigger state and
day 0: the second same-day firing is skipped. -/
theorem daily_trigger_idempotent_witness :
    on_timer (on_timer ⟨none, false⟩ 0 true).state 0 true =
      ⟨.skipped, (on_timer ⟨none, false⟩ 0 true).state, false⟩ :=
  (daily_trigger_idempotent ⟨none, false⟩ 0 true rfl (by simp)).2.2.1

/-- C8: when the decision cycle raises (`cycleOk = false`), the handler still
reports an executed firing but `_last_processed_date` is not advanced, and
the `finally` clears `_execution_lock` whether the cycle failed or
succeeded. -/
theorem error_cycle_keeps_day_unprocessed (s : TriggerState) (d : ℕ)
    (hlock : s.execution_lock = false) (hday : s.last_processed_date ≠ some d) :
    (on_timer s d false).result = .executed ∧
    (on_timer s d false).state.last_processed_date = s.last_processed_date ∧
    (on_timer s d false).state.execution_lock = false ∧
    (on_timer s d true).state.execution_lock = false := by
  refine ⟨?_, ?_, ?_, ?_⟩ <;> simp [on_timer, hlock, hday]

/-- Witness for `error_cycle_keeps_day_unprocessed`: a failing first cycle on
day 3 leaves the day unprocessed and the lock clear. -/
theorem error_cycle_keeps_day_unprocessed_witness :
    (on_timer ⟨some 2, false⟩ 3 false).state.last_processed_date = some 2 ∧
    (on_timer ⟨some 2, false⟩ 3 false).state.execution_lock = false := by
  have h := error_cycle_keeps_day_unprocessed ⟨some 2, false⟩ 3 rfl (by simp)
  exact ⟨h.2.1, h.2.2.1⟩

/-! ## Close semantics and position sizing (claims C5, C4, C6) -/

/-- A state holding a nonzero UMAC leg is not the reset dict. -/
lemma ne_initial_of_umac (s : Positions) (h : s.umac ≠ 0) : s ≠ initialPositions :=
  fun hc => h (by rw [hc]; rfl)

/-- A state holding a nonzero RCAT leg is not the reset dict. -/
lemma ne_initial_of_rcat (s : Positions) (h : s.rcat ≠ 0) : s ≠ initialPositions :=
  fun hc => h (by rw [hc]; rfl)

/-- C5: `close_positions` resets the shared positions to the zeroed flat dict
exactly when every required close submission was accepted (a leg at zero
needs no order); when the UMAC or the RCAT close call fails, the recorded
position state is returned unchanged — and it is not the reset dict, since a
failing close call presupposes a nonzero leg. -/
theorem close_resets_only_after_acceptance (uOk rOk : Bool) (s : Positions) :
    (((s.umac = 0 ∨ uOk = true) ∧ (s.rcat = 0 ∨ rOk = true)) →
      (close_positions uOk rOk s).1 = initialPositions) ∧
    (¬((s.umac = 0 ∨ uOk = true) ∧ (s.rcat = 0 ∨ rOk = true)) →
      (close_positions uOk rOk s).1 = s ∧ s ≠ initialPositions) := by
  constructor
  · rintro ⟨h1, h2⟩
    have hn1 : ¬(s.umac ≠ 0 ∧ uOk = false) := by
      rcases h1 with h | h <;> simp [h]
    have hn2 : ¬(s.rcat ≠ 0 ∧ rOk = false) := by
      rcases h2 with h | h <;> simp [h]
    simp [close_positions, hn1, hn2]
  · intro h
    rcases Decidable.em (s.umac ≠ 0 ∧ uOk = false) with hA | hA
    · exact ⟨by simp [close_positions, hA], ne_initial_of_umac s hA.1⟩
    · have hX : s.umac = 0 ∨ uOk = true := by
        rcases Decidable.em (s.umac = 0) with h' | h'
        · exact Or.inl h'
        · right
          cases uOk with
          | true => rfl
          | false => exact absurd ⟨h', rfl⟩ hA
      have hB : s.rcat ≠ 0 ∧ rOk = false := by
        rcases Decidable.em (s.rcat = 0) with h' | h'
        · exact absurd ⟨hX, Or.inl h'⟩ h
        · refine ⟨h', ?_⟩
          cases rOk with
          | true => exact absurd ⟨hX, Or.inr rfl⟩ h
          | false => rfl
      exact ⟨by simp [close_positions, hA, hB], ne_initial_of_rcat s hB.1⟩

/-- Witness for `close_resets_only_after_acceptance`: with a live long-spread
position and a failing UMAC close call, the recorded state is unchanged. -/
theorem close_resets_only_after_acceptance_witness :
    (close_positions false true
        ⟨100, -139, true, some TradeDirection.long_spread⟩).1 =
      ⟨100, -139, true, some TradeDirection.long_spread⟩ :=
  ((close_resets_only_after_acceptance false true
    ⟨100, -139, true, some TradeDirection.long_spread⟩).2 (by decide)).1

/-- Concrete sizing from the spec's scenario: buying power 100000, UMAC at
20, default parameters, giving `umac_shares = 1000` and
`rcat_shares = int(1000 * 1.389508) = 1389`. -/
lemma entryShares_default_eval : entryShares defaultConfig 100000 20 = (1000, 1389) := by
  have h1 : pyInt ((100000 : ℚ) / 2 / 20) = 2500 := by
    norm_num [pyInt]
  have h2 : min defaultConfig.max_position_size 2500 = 1000 := by
    norm_num [defaultConfig]
  have h3 : pyInt (((1000 : ℤ) : ℚ) * defaultConfig.hedge_ratio) = 1389 := by
    have he : ((1000 : ℤ) : ℚ) * defaultConfig.hedge_ratio = 1389508 / 1000 := by
      norm_num [defaultConfig]
    rw [pyInt, he, if_pos (by norm_num)]
    norm_num [Int.floor_eq_iff]
  simp only [entryShares, h1, h2, h3]

/-- C4: under nonnegative buying power, a positive UMAC price, a positive
hedge ratio and a positive position cap, the UMAC share count is
`min(max_position_size, ⌊(buying_power/2)/price⌋)` and the RCAT share count
is `⌊umac_shares * hedge_ratio⌋` (truncation equals floor here); the spec's
scenario evaluates to `(1000, 1389)`; and both entry routines submit orders
only when both counts are positive. -/
theorem position_sizing_formula (cfg : StratConfig) (bp pU pR : ℚ) (uOk rOk : Bool)
    (s : Positions) (hbp : 0 ≤ bp) (hpU : 0 < pU) (hhr : 0 < cfg.hedge_ratio)
    (hmax : 0 < cfg.max_position_size) :
    (entryShares cfg bp pU).1 = min cfg.max_position_size ⌊bp / 2 / pU⌋ ∧
    (entryShares cfg bp pU).2 = ⌊((entryShares cfg bp pU).1 : ℚ) * cfg.hedge_ratio⌋ ∧
    entryShares defaultConfig 100000 20 = (1000, 1389) ∧
    ((enter_long_spread cfg pU pR bp uOk rOk s).2 ≠ [] →
      0 < (entryShares cfg bp pU).1 ∧ 0 < (entryShares cfg bp pU).2) ∧
    ((enter_short_spread cfg pU pR bp uOk rOk s).2 ≠ [] →
      0 < (entryShares cfg bp pU).1 ∧ 0 < (entryShares cfg bp pU).2) := by
  have hq : (0 : ℚ) ≤ bp / 2 / pU := div_nonneg (div_nonneg hbp (by norm_num)) hpU.le
  have h1 : (entryShares cfg bp pU).1 = min cfg.max_position_size ⌊bp / 2 / pU⌋ := by
    simp [entryShares, pyInt, hq]
  have hu0 : 0 ≤ (entryShares cfg bp pU).1 := by
    rw [h1]
    exact le_min hmax.le (Int.floor_nonneg.mpr hq)
  have h2 : (entryShares cfg bp pU).2 =
      ⌊((entryShares cfg bp pU).1 : ℚ) * cfg.hedge_ratio⌋ := by
    have hrfl : (entryShares cfg bp pU).2 =
        pyInt (((entryShares cfg bp pU).1 : ℚ) * cfg.hedge_ratio) := rfl
    rw [hrfl, pyInt,
      if_pos (mul_nonneg (by exact_mod_cast hu0) hhr.le)]
  refine ⟨h1, h2, entryShares_default_eval, ?_, ?_⟩
  · intro hne
    rw [enter_long_spread] at hne
    split_ifs at hne with h hA hB
    · exact h
    · exact h
    · simp at hne
    · simp at hne
  · intro hne
    rw [enter_short_spread] at hne
    split_ifs at hne with h hA hB
    · exact h
    · exact h
    · simp at hne
    · simp at hne

/-- Witness for `position_sizing_formula` at the spec scenario (capital
100000, price 20, default config). -/
theorem position_sizing_formula_witness :
    (entryShares defaultConfig 100000 20).1 =
      min defaultConfig.max_position_size ⌊(100000 : ℚ) / 2 / 20⌋ ∧
    entryShares defaultConfig 100000 20 = (1000, 1389) := by
  have h := position_sizing_formula defaultConfig 100000 20 15 true true
    initialPositions (by norm_num) (by norm_num)
    (by norm_num [defaultConfig]) (by norm_num [defaultConfig])
  exact ⟨h.1, h.2.2.1⟩

/-- C6 counterexample: entering a long spread with buying power 100000 and
UMAC at 20 records `rcat = -1389` (truncation), but the claimed
`round(umac_shares * hedge_ratio)` is `round(1389.508) = 1390`, so the
recorded RCAT quantity is not `-round(umac * hedge_ratio)`. -/
theorem rcat_shares_round_counterexample :
    (enter_long_spread defaultConfig 20 15 100000 true true
        initialPositions).1.umac = 1000 ∧
    (enter_long_spread defaultConfig 20 15 100000 true true
        initialPositions).1.rcat = -1389 ∧
    round ((1000 : ℚ) * defaultConfig.hedge_ratio) = 1390 ∧
    (enter_long_spread defaultConfig 20 15 100000 true true
        initialPositions).1.rcat ≠
      -round (((enter_long_spread defaultConfig 20 15 100000 true true
          initialPositions).1.umac : ℚ) * defaultConfig.hedge_ratio) := by
  have hst : (enter_long_spread defaultConfig 20 15 100000 true true
      initialPositions).1 =
      { umac := 1000, rcat := -1389, in_trade := true,
        trade_direction := some .long_spread } := by
    rw [enter_long_spread]
    rw [entryShares_default_eval]
    norm_num
  have hround : round ((1000 : ℚ) * defaultConfig.hedge_ratio) = 1390 := by
    have : (1000 : ℚ) * defaultConfig.hedge_ratio = 1389508 / 1000 := by
      norm_num [defaultConfig]
    rw [this, round_eq]
    norm_num [Int.floor_eq_iff]
  rw [hst]
  refine ⟨rfl, rfl, hround, ?_⟩
  simp only []
  rw [show (((1000 : ℤ) : ℚ)) = (1000 : ℚ) by norm_num, hround]
  decide

/-- C6 amended: after a successful entry the recorded RCAT quantity is the
truncation `int(umac_shares * hedge_ratio)` (equal to the floor for the
nonnegative counts that occur), with sign opposite to the UMAC leg: long
spread records `(+umac, -rcat)`, short spread `(-umac, +rcat)`. -/
theorem rcat_shares_truncated_opposite (cfg : StratConfig) (pU pR bp : ℚ)
    (s : Positions) (hhr : 0 < cfg.hedge_ratio)
    (hu : 0 < (entryShares cfg bp pU).1) (hr : 0 < (entryShares cfg bp pU).2) :
    ((enter_long_spread cfg pU pR bp true true s).1.umac =
        (entryShares cfg bp pU).1 ∧
      (enter_long_spread cfg pU pR bp true true s).1.rcat =
        -(entryShares cfg bp pU).2 ∧
      0 < (enter_long_spread cfg pU pR bp true true s).1.umac ∧
      (enter_long_spread cfg pU pR bp true true s).1.rcat < 0) ∧
    ((enter_short_spread cfg pU pR bp true true s).1.umac =
        -(entryShares cfg bp pU).1 ∧
      (enter_short_spread cfg pU pR bp true true s).1.rcat =
        (entryShares cfg bp pU).2 ∧
      (enter_short_spread cfg pU pR bp true true s).1.umac < 0 ∧
      0 < (enter_short_spread cfg pU pR bp true true s).1.rcat) ∧
    (entryShares cfg bp pU).2 =
      pyInt (((entryShares cfg bp pU).1 : ℚ) * cfg.hedge_ratio) ∧
    (entryShares cfg bp pU).2 = ⌊((entryShares cfg bp pU).1 : ℚ) * cfg.hedge_ratio⌋ := by
  have hcond : 0 < (entryShares cfg bp pU).1 ∧ 0 < (entryShares cfg bp pU).2 := ⟨hu, hr⟩
  have hlong : (enter_long_spread cfg pU pR bp true true s).1 =
      { umac := (entryShares cfg bp pU).1, rcat := -(entryShares cfg bp pU).2,
        in_trade := true, trade_direction := some .long_spread } := by
    rw [enter_long_spread, if_pos hcond]
    simp
  have hshort : (enter_short_spread cfg pU pR bp true true s).1 =
      { umac := -(entryShares cfg bp pU).1, rcat := (entryShares cfg bp pU).2,
        in_trade := true, trade_direction := some .short_spread } := by
    rw [enter_short_spread, if_pos hcond]
    simp
  refine ⟨?_, ?_, rfl, ?_⟩
  · rw [hlong]
    exact ⟨rfl, rfl, hu, by simpa using hr⟩
  · rw [hshort]
    exact ⟨rfl, rfl, by simpa using hu, hr⟩
  · have hrfl : (entryShares cfg bp pU).2 =
        pyInt (((entryShares cfg bp pU).1 : ℚ) * cfg.hedge_ratio) := rfl
    rw [hrfl, pyInt, if_pos (mul_nonneg (by exact_mod_cast hu.le) hhr.le)]

/-- Witness for `rcat_shares_truncated_opposite` at the spec scenario: the
long entry records legs `(+1000, -1389)`. -/
theorem rcat_shares_truncated_opposite_witness :
    (enter_long_spread defaultConfig 20 15 100000 true true
        initialPositions).1.umac = (entryShares defaultConfig 100000 20).1 ∧
    (enter_long_spread defaultConfig 20 15 100000 true true
        initialPositions).1.rcat = -(entryShares defaultConfig 100000 20).2 := by
  have h := rcat_shares_truncated_opposite defaultConfig 20 15 100000
    initialPositions (by norm_num [defaultConfig])
    (by rw [entryShares_default_eval]; norm_num)
    (by rw [entryShares_default_eval]; norm_num)
  exact ⟨h.1.1, h.1.2.1⟩

/-! ## The Z-score comparisons over the reals -/

/-- The decidable square comparison `zscoreGT` agrees with the real
comparison `threshold < num / sqrt var` whenever the variance is positive:
the embedded float comparisons are the exact ones, with no clamping. -/
theorem zscoreGT_iff_real (num var t : ℚ) (hv : 0 < var) :
    zscoreGT num var t = true ↔ (t : ℝ) < (num : ℝ) / Real.sqrt (var : ℝ) := by
  have hvR : (0 : ℝ) < (var : ℝ) := by exact_mod_cast hv
  have hσ : 0 < Real.sqrt (var : ℝ) := Real.sqrt_pos.mpr hvR
  have hσ2 : Real.sqrt (var : ℝ) ^ 2 = (var : ℝ) := Real.sq_sqrt hvR.le
  rw [lt_div_iff₀ hσ]
  unfold zscoreGT
  by_cases ht : 0 ≤ t
  · simp only [if_pos ht, Bool.and_eq_true, decide_eq_true_eq]
    constructor
    · rintro ⟨hn, hsq⟩
      have hnR : (0 : ℝ) < (num : ℝ) := by exact_mod_cast hn
      have hsqR : ((t : ℝ) * Real.sqrt (var : ℝ)) ^ 2 < (num : ℝ) ^ 2 := by
        rw [mul_pow, hσ2]
        exact_mod_cast hsq
      exact lt_of_pow_lt_pow_left 2 hnR.le hsqR
    · intro hlt
      have htσ : 0 ≤ (t : ℝ) * Real.sqrt (var : ℝ) :=
        mul_nonneg (by exact_mod_cast ht) hσ.le
      have hnR : (0 : ℝ) < (num : ℝ) := lt_of_le_of_lt htσ hlt
      refine ⟨by exact_mod_cast hnR, ?_⟩
      have hsqR : ((t : ℝ) * Real.sqrt (var : ℝ)) ^ 2 < (num : ℝ) ^ 2 :=
        pow_lt_pow_left hlt htσ (by norm_num)
      rw [mul_pow, hσ2] at hsqR
      exact_mod_cast hsqR
  · push_neg at ht
    simp only [if_neg (not_le.mpr ht), Bool.or_eq_true, decide_eq_true_eq]
    have htR : (t : ℝ) < 0 := by exact_mod_cast ht
    have htσneg : (t : ℝ) * Real.sqrt (var : ℝ) < 0 := mul_neg_of_neg_of_pos htR hσ
    constructor
    · rintro (hn | hsq)
      · exact lt_of_lt_of_le htσneg (by exact_mod_cast hn)
      · rcases le_or_lt 0 (num : ℝ) with hn0 | hn0
        · exact lt_of_lt_of_le htσneg hn0
        · have h1 : (-(num : ℝ)) ^ 2 < (-((t : ℝ) * Real.sqrt (var : ℝ))) ^ 2 := by
            rw [neg_sq, neg_sq, mul_pow, hσ2]
            exact_mod_cast hsq
          have h2 : -(num : ℝ) < -((t : ℝ) * Real.sqrt (var : ℝ)) :=
            lt_of_pow_lt_pow_left 2 (neg_nonneg.mpr htσneg.le) h1
          exact neg_lt_neg_iff.mp h2
    · intro hlt
      rcases le_or_lt 0 num with hn0 | hn0
      · exact Or.inl hn0
      · right
        have hnR : (num : ℝ) < 0 := by exact_mod_cast hn0
        have h1 : -(num : ℝ) < -((t : ℝ) * Real.sqrt (var : ℝ)) := neg_lt_neg hlt
        have h2 : (-(num : ℝ)) ^ 2 < (-((t : ℝ) * Real.sqrt (var : ℝ))) ^ 2 :=
          pow_lt_pow_left h1 (neg_nonneg.mpr hnR.le) (by norm_num)
        rw [neg_sq, neg_sq, mul_pow, hσ2] at h2
        exact_mod_cast h2

/-- Counterpart of `zscoreGT_iff_real` for the `<` comparison. -/
theorem zscoreLT_iff_real (num var t : ℚ) (hv : 0 < var) :
    zscoreLT num var t = true ↔ (num : ℝ) / Real.sqrt (var : ℝ) < (t : ℝ) := by
  rw [zscoreLT, zscoreGT_iff_real _ _ _ hv]
  push_cast
  rw [neg_div]
  exact neg_lt_neg_iff

/-! ## The trade state machine (claims C7, C3) -/

/-- The reset dict maps to the `flat` state. -/
lemma posState_initial : posState initialPositions = .flat := by
  simp [posState, initialPositions]

/-- A state that is not `flat` has its in-trade flag set. -/
lemma in_trade_of_posState_ne_flat (s : Positions) (h : posState s ≠ .flat) :
    s.in_trade = true := by
  by_contra hb
  have hf : s.in_trade = false := by
    cases hin : s.in_trade
    · rfl
    · exact absurd hin hb
  exact h (by simp [posState, hf])

/-- `close_positions` leaves the recorded state unchanged or resets it. -/
lemma close_positions_state_cases (uOk rOk : Bool) (s : Positions) :
    (close_positions uOk rOk s).1 = s ∨
      (close_positions uOk rOk s).1 = initialPositions := by
  unfold close_positions
  split_ifs <;> simp

/-- The in-trade branch of the trading dispatch either holds the recorded
state or resets it: only `close_positions` can mutate it. -/
lemma trading_decision_in_trade_cases (cfg : StratConfig) (zNum zVar pU pR bp : ℚ)
    (uOk rOk : Bool) (s : Positions) (h : s.in_trade = true) :
    (trading_logic_decision cfg zNum zVar pU pR bp uOk rOk s).1 = s ∨
      (trading_logic_decision cfg zNum zVar pU pR bp uOk rOk s).1 =
        initialPositions := by
  rw [trading_logic_decision, if_neg (by simp [h]), check_exit_signals]
  split_ifs with hx
  · exact close_positions_state_cases uOk rOk s
  · exact Or.inl rfl

/-- An in-trade decision cycle either holds the recorded state or resets it:
the exit path is the only mutation available. -/
lemma execute_in_trade_cases (cfg : StratConfig) (m : MarketSnapshot) (bp : ℚ)
    (uOk rOk : Bool) (s : Positions) (h : s.in_trade = true) :
    (execute_pairs_trading_logic cfg m bp uOk rOk s).1 = s ∨
      (execute_pairs_trading_logic cfg m bp uOk rOk s).1 = initialPositions := by
  rcases hst : spreadStatsPhase cfg m with _ | st
  · unfold execute_pairs_trading_logic
    rw [hst]
    exact Or.inl rfl
  · unfold execute_pairs_trading_logic
    rw [hst]
    exact trading_decision_in_trade_cases cfg _ _ _ _ bp uOk rOk s h

/-- C3: in one decision cycle the engine never moves the position state
directly between `longSpread` and `shortSpread`: a non-flat state is held
unchanged or reset to flat, and any cycle that changes the state into a
non-flat one started from flat. -/
theorem position_state_no_direct_flip (cfg : StratConfig) (m : MarketSnapshot)
    (bp : ℚ) (uOk rOk : Bool) (s : Positions) :
    (posState s = .longSpread →
      posState (execute_pairs_trading_logic cfg m bp uOk rOk s).1 ≠ .shortSpread) ∧
    (posState s = .shortSpread →
      posState (execute_pairs_trading_logic cfg m bp uOk rOk s).1 ≠ .longSpread) ∧
    (posState s ≠ .flat →
      posState (execute_pairs_trading_logic cfg m bp uOk rOk s).1 = posState s ∨
        (execute_pairs_trading_logic cfg m bp uOk rOk s).1 = initialPositions) ∧
    (posState (execute_pairs_trading_logic cfg m bp uOk rOk s).1 ≠ .flat →
      posState (execute_pairs_trading_logic cfg m bp uOk rOk s).1 ≠ posState s →
      posState s = .flat) := by
  have key : posState s ≠ .flat →
      posState (execute_pairs_trading_logic cfg m bp uOk rOk s).1 = posState s ∨
        (execute_pairs_trading_logic cfg m bp uOk rOk s).1 = initialPositions := by
    intro hne
    rcases execute_in_trade_cases cfg m bp uOk rOk s
        (in_trade_of_posState_ne_flat s hne) with h | h
    · exact Or.inl (by rw [h])
    · exact Or.inr h
  refine ⟨?_, ?_, key, ?_⟩
  · intro hl
    rcases key (by rw [hl]; simp) with h | h
    · rw [h, hl]; simp
    · rw [h, posState_initial]; simp
  · intro hl
    rcases key (by rw [hl]; simp) with h | h
    · rw [h, hl]; simp
    · rw [h, posState_initial]; simp
  · intro h1 h2
    by_contra h3
    rcases key h3 with h | h
    · exact h2 h
    · rw [h, posState_initial] at h1
      exact h1 rfl

/-- Witness for `position_state_no_direct_flip`: from a live long-spread
state, a cycle with no market data (hence a skipped cycle) does not land in
`shortSpread`. -/
theorem position_state_no_direct_flip_witness :
    posState (execute_pairs_trading_logic defaultConfig ⟨none, none, none, none⟩
        100000 true true ⟨1000, -1389, true, some .long_spread⟩).1 ≠ .shortSpread :=
  (position_state_no_direct_flip defaultConfig ⟨none, none, none, none⟩
    100000 true true ⟨1000, -1389, true, some .long_spread⟩).1 (by simp [posState])

/-- C7: the state machine implements the spec's §4.3 transition table, with
`z = zNum / sqrt zVar` the real Z-score, under the configuration invariant
`0 ≤ entry_threshold` and with both order submissions accepted and (for entries)
positive sized share counts.  From flat, `z > entry` enters the short spread
(sell UMAC, buy RCAT), `z < -entry` enters the long spread, `|z| ≤ entry` is
a no-op; a long spread closes to flat iff `z > -exit`, a short spread closes
to flat iff `z < exit`, and holds otherwise. -/
theorem state_machine_transition_table (cfg : StratConfig) (zNum zVar pU pR bp : ℚ)
    (s : Positions) (hv : 0 < zVar) (hent : 0 ≤ cfg.entry_threshold) :
    (s.in_trade = false →
      (cfg.entry_threshold : ℝ) < (zNum : ℝ) / Real.sqrt (zVar : ℝ) →
      0 < (entryShares cfg bp pU).1 → 0 < (entryShares cfg bp pU).2 →
      trading_logic_decision cfg zNum zVar pU pR bp true true s =
        ({ umac := -(entryShares cfg bp pU).1, rcat := (entryShares cfg bp pU).2,
           in_trade := true, trade_direction := some .short_spread },
         [⟨"UMAC", .sell, .init, some (entryShares cfg bp pU).1⟩,
          ⟨"RCAT", .buy, .init, some (entryShares cfg bp pU).2⟩])) ∧
    (s.in_trade = false →
      (zNum : ℝ) / Real.sqrt (zVar : ℝ) < -(cfg.entry_threshold : ℝ) →
      0 < (entryShares cfg bp pU).1 → 0 < (entryShares cfg bp pU).2 →
      trading_logic_decision cfg zNum zVar pU pR bp true true s =
        ({ umac := (entryShares cfg bp pU).1, rcat := -(entryShares cfg bp pU).2,
           in_trade := true, trade_direction := some .long_spread },
         [⟨"UMAC", .buy, .init, some (entryShares cfg bp pU).1⟩,
          ⟨"RCAT", .sell, .init, some (entryShares cfg bp pU).2⟩])) ∧
    (s.in_trade = false →
      -(cfg.entry_threshold : ℝ) ≤ (zNum : ℝ) / Real.sqrt (zVar : ℝ) →
      (zNum : ℝ) / Real.sqrt (zVar : ℝ) ≤ (cfg.entry_threshold : ℝ) →
      trading_logic_decision cfg zNum zVar pU pR bp true true s = (s, [])) ∧
    (s.in_trade = true → s.trade_direction = some .long_spread →
      -(cfg.exit_threshold : ℝ) < (zNum : ℝ) / Real.sqrt (zVar : ℝ) →
      (trading_logic_decision cfg zNum zVar pU pR bp true true s).1 =
        initialPositions) ∧
    (s.in_trade = true → s.trade_direction = some .long_spread →
      (zNum : ℝ) / Real.sqrt (zVar : ℝ) ≤ -(cfg.exit_threshold : ℝ) →
      trading_logic_decision cfg zNum zVar pU pR bp true true s = (s, [])) ∧
    (s.in_trade = true → s.trade_direction = some .short_spread →
      (zNum : ℝ) / Real.sqrt (zVar : ℝ) < (cfg.exit_threshold : ℝ) →
      (trading_logic_decision cfg zNum zVar pU pR bp true true s).1 =
        initialPositions) ∧
    (s.in_trade = true → s.trade_direction = some .short_spread →
      (cfg.exit_threshold : ℝ) ≤ (zNum : ℝ) / Real.sqrt (zVar : ℝ) →
      trading_logic_decision cfg zNum zVar pU pR bp true true s = (s, [])) := by
  have hGTentry := zscoreGT_iff_real zNum zVar cfg.entry_threshold hv
  have hLTnegentry := zscoreLT_iff_real zNum zVar (-cfg.entry_threshold) hv
  have hGTnegexit := zscoreGT_iff_real zNum zVar (-cfg.exit_threshold) hv
  have hLTexit := zscoreLT_iff_real zNum zVar cfg.exit_threshold hv
  refine ⟨?_, ?_, ?_, ?_, ?_, ?_, ?_⟩
  · intro hflat hz hu hr
    have hg : zscoreGT zNum zVar cfg.entry_threshold = true := hGTentry.mpr hz
    rw [trading_logic_decision, if_pos hflat, check_entry_signals, if_pos hg,
      enter_short_spread, if_pos ⟨hu, hr⟩]
    simp
  · intro hflat hz hu hr
    have hgn : ¬zscoreGT zNum zVar cfg.entry_threshold = true := by
      rw [hGTentry]
      push_neg
      calc (zNum : ℝ) / Real.sqrt (zVar : ℝ)
          ≤ -(cfg.entry_threshold : ℝ) := hz.le
        _ ≤ (cfg.entry_threshold : ℝ) := by
            have : (0 : ℝ) ≤ (cfg.entry_threshold : ℝ) := by exact_mod_cast hent
            linarith
    have hl : zscoreLT zNum zVar (-cfg.entry_threshold) = true := by
      rw [hLTnegentry]
      push_cast
      exact hz
    rw [trading_logic_decision, if_pos hflat, check_entry_signals, if_neg hgn,
      if_pos hl, enter_long_spread, if_pos ⟨hu, hr⟩]
    simp
  · intro hflat hz1 hz2
    have hgn : ¬zscoreGT zNum zVar cfg.entry_threshold = true := by
      rw [hGTentry]
      push_neg
      exact hz2
    have hln : ¬zscoreLT zNum zVar (-cfg.entry_threshold) = true := by
      rw [hLTnegentry]
      push_neg
      push_cast
      exact hz1
    rw [trading_logic_decision, if_pos hflat, check_entry_signals, if_neg hgn,
      if_neg hln]
  · intro hin hdir hz
    have hg : zscoreGT zNum zVar (-cfg.exit_threshold) = true := by
      rw [hGTnegexit]
      push_cast
      exact hz
    rw [trading_logic_decision, if_neg (by simp [hin]), check_exit_signals,
      if_pos (Or.inl ⟨hdir, hg⟩), close_positions,
      if_neg (by simp), if_neg (by simp)]
  · intro hin hdir hz
    have hgn : ¬zscoreGT zNum zVar (-cfg.exit_threshold) = true := by
      rw [hGTnegexit]
      push_neg
      push_cast
      exact hz
    have hcond : ¬((s.trade_direction = some TradeDirection.long_spread ∧
          zscoreGT zNum zVar (-cfg.exit_threshold) = true) ∨
        (s.trade_direction = some TradeDirection.short_spread ∧
          zscoreLT zNum zVar cfg.exit_threshold = true)) := by
      rintro (⟨_, hg⟩ | ⟨hd, _⟩)
      · exact hgn hg
      · rw [hdir] at hd
        exact absurd hd (by simp)
    rw [trading_logic_decision, if_neg (by simp [hin]), check_exit_signals,
      if_neg hcond]
  · intro hin hdir hz
    have hl : zscoreLT zNum zVar cfg.exit_threshold = true := hLTexit.mpr hz
    rw [trading_logic_decision, if_neg (by simp [hin]), check_exit_signals,
      if_pos (Or.inr ⟨hdir, hl⟩), close_positions,
      if_neg (by simp), if_neg (by simp)]
  · intro hin hdir hz
    have hln : ¬zscoreLT zNum zVar cfg.exit_threshold = true := by
      rw [hLTexit]
      push_neg
      exact hz
    have hcond : ¬((s.trade_direction = some TradeDirection.long_spread ∧
          zscoreGT zNum zVar (-cfg.exit_threshold) = true) ∨
        (s.trade_direction = some TradeDirection.short_spread ∧
          zscoreLT zNum zVar cfg.exit_threshold = true)) := by
      rintro (⟨hd, _⟩ | ⟨_, hl⟩)
      · rw [hdir] at hd
        exact absurd hd (by simp)
      · exact hln hl
    rw [trading_logic_decision, if_neg (by simp [hin]), check_exit_signals,
      if_neg hcond]

/-- Witness for `state_machine_transition_table`: with default parameters,
`z = 2 / sqrt 1 = 2 > 1.4` from flat enters the short spread sized
`(1000, 1389)`. -/
theorem state_machine_transition_table_witness :
    trading_logic_decision defaultConfig 2 1 20 15 100000 true true
        initialPositions =
      ({ umac := -1000, rcat := 1389, in_trade := true,
         trade_direction := some .short_spread },
       [⟨"UMAC", .sell, .init, some 1000⟩, ⟨"RCAT", .buy, .init, some 1389⟩]) := by
  have hz : (defaultConfig.entry_threshold : ℝ) < (2 : ℚ) / Real.sqrt ((1 : ℚ) : ℝ) := by
    rw [show (((1 : ℚ)) : ℝ) = (1 : ℝ) by norm_num, Real.sqrt_one]
    norm_num [defaultConfig]
  have h := (state_machine_transition_table defaultConfig 2 1 20 15 100000
    initialPositions (by norm_num) (by norm_num [defaultConfig])).1 rfl hz
    (by rw [entryShares_default_eval]; norm_num)
    (by rw [entryShares_default_eval]; norm_num)
  rw [h, entryShares_default_eval]

/-! ## Spread statistics: guards and the Z-score denominator (claims C9, C1) -/

/-- The population variance is a mean of squares, hence nonnegative. -/
lemma popVar_nonneg (l : List ℚ) : 0 ≤ popVar l := by
  unfold popVar
  apply div_nonneg
  · apply List.sum_nonneg
    intro x hx
    simp only [List.mem_map] at hx
    obtain ⟨y, -, rfl⟩ := hx
    positivity
  · positivity

/-- What a successful statistics phase guarantees: the history is the aligned
spread list, the mean is `np.mean`, the variance is numpy's default
population variance (`ddof=0`, divisor `L`), and it is strictly positive
(the `spread_std == 0` guard has passed). -/
lemma spreadStatsPhase_some (cfg : StratConfig) (m : MarketSnapshot) (st : SpreadStats)
    (h : spreadStatsPhase cfg m = some st) :
    st.spread_history = alignedSpreads cfg m ∧
    st.spread_mean = listMean st.spread_history ∧
    st.spread_var = popVar st.spread_history ∧
    0 < st.spread_var := by
  unfold spreadStatsPhase at h
  repeat' split at h
  any_goals exact Option.noConfusion h
  all_goals simp only [] at h
  repeat' split at h
  any_goals exact Option.noConfusion h
  all_goals
    rw [Option.some_inj] at h
  all_goals
    subst h
  all_goals
    rename_i hvz
  all_goals
    refine ⟨rfl, rfl, rfl, ?_⟩
  all_goals
    have hne : popVar (alignedSpreads cfg m) ≠ 0 := by exact hvz
  all_goals
    exact lt_of_le_of_ne (popVar_nonneg _) (Ne.symm hne)

/-- A `None` UMAC history makes the data phase bail out. -/
lemma phase_none_of_umac_none (cfg : StratConfig) (m : MarketSnapshot)
    (h : m.umacBars = none) : spreadStatsPhase cfg m = none := by
  unfold spreadStatsPhase
  rw [h]

/-- A UMAC history shorter than the lookback makes the data phase bail out. -/
lemma phase_none_of_umac_short (cfg : StratConfig) (m : MarketSnapshot) (l : List ℚ)
    (h : m.umacBars = some l) (hlen : l.length < cfg.lookback_period) :
    spreadStatsPhase cfg m = none := by
  unfold spreadStatsPhase
  rw [h]
  simp [hlen]

/-- A `None` RCAT history makes the data phase bail out. -/
lemma phase_none_of_rcat_none (cfg : StratConfig) (m : MarketSnapshot)
    (h : m.rcatBars = none) : spreadStatsPhase cfg m = none := by
  unfold spreadStatsPhase
  rcases hub : m.umacBars with _ | u
  · rfl
  · simp only []
    split
    · rfl
    · rcases hl : u.getLast? with _ | ul
      · rfl
      · simp only [h]

/-- An RCAT history shorter than the lookback makes the data phase bail
out. -/
lemma phase_none_of_rcat_short (cfg : StratConfig) (m : MarketSnapshot) (l : List ℚ)
    (h : m.rcatBars = some l) (hlen : l.length < cfg.lookback_period) :
    spreadStatsPhase cfg m = none := by
  unfold spreadStatsPhase
  rcases hub : m.umacBars with _ | u
  · rfl
  · simp only []
    split
    · rfl
    · rcases hl : u.getLast? with _ | ul
      · rfl
      · simp only [h]
        simp [hlen]

/-- A zero-variance (zero standard deviation) spread history makes the data
phase bail out at the line-117 guard. -/
lemma phase_none_of_var_zero (cfg : StratConfig) (m : MarketSnapshot)
    (h : popVar (alignedSpreads cfg m) = 0) : spreadStatsPhase cfg m = none := by
  rcases hst : spreadStatsPhase cfg m with _ | st
  · rfl
  · obtain ⟨h1, -, h3, h4⟩ := spreadStatsPhase_some cfg m st hst
    rw [h3, h1, h] at h4
    exact absurd h4 (by norm_num)

/-- C9: a decision cycle with a missing close history, a history shorter
than the lookback (20 by default), or a zero-standard-deviation spread
history is skipped: no Z-score is acted on, no orders are submitted, and the
shared position state is returned unchanged. -/
theorem insufficient_or_degenerate_skips (cfg : StratConfig) (m : MarketSnapshot)
    (bp : ℚ) (uOk rOk : Bool) (s : Positions) :
    (m.umacBars = none →
      execute_pairs_trading_logic cfg m bp uOk rOk s = (s, [])) ∧
    (m.rcatBars = none →
      execute_pairs_trading_logic cfg m bp uOk rOk s = (s, [])) ∧
    (∀ l, m.umacBars = some l → l.length < cfg.lookback_period →
      execute_pairs_trading_logic cfg m bp uOk rOk s = (s, [])) ∧
    (∀ l, m.rcatBars = some l → l.length < cfg.lookback_period →
      execute_pairs_trading_logic cfg m bp uOk rOk s = (s, [])) ∧
    (popVar (alignedSpreads cfg m) = 0 →
      execute_pairs_trading_logic cfg m bp uOk rOk s = (s, [])) ∧
    defaultConfig.lookback_period = 20 := by
  have hskip : spreadStatsPhase cfg m = none →
      execute_pairs_trading_logic cfg m bp uOk rOk s = (s, []) := by
    intro h
    unfold execute_pairs_trading_logic
    rw [h]
  exact ⟨fun h => hskip (phase_none_of_umac_none cfg m h),
    fun h => hskip (phase_none_of_rcat_none cfg m h),
    fun l hl hlen => hskip (phase_none_of_umac_short cfg m l hl hlen),
    fun l hl hlen => hskip (phase_none_of_rcat_short cfg m l hl hlen),
    fun h => hskip (phase_none_of_var_zero cfg m h),
    rfl⟩

/-- Witness for `insufficient_or_degenerate_skips`: with no market data the
cycle leaves the flat state untouched and submits nothing. -/
theorem insufficient_or_degenerate_skips_witness :
    execute_pairs_trading_logic defaultConfig ⟨none, none, none, none⟩ 100000
      true true initialPositions = (initialPositions, []) :=
  (insufficient_or_degenerate_skips defaultConfig ⟨none, none, none, none⟩ 100000
    true true initialPositions).1 rfl

/-- Twenty UMAC closes for the ddof counterexample: nineteen days at 1 and a
final close at 21. -/
def cxCloses : List ℚ := [1, 1, 1, 1, 1, 1, 1, 1, 1, 1, 1, 1, 1, 1, 1, 1, 1, 1, 1, 21]

/-- Twenty RCAT closes pinned at 0, so the spread history equals the UMAC
closes. -/
def cxZeros : List ℚ := [0, 0, 0, 0, 0, 0, 0, 0, 0, 0, 0, 0, 0, 0, 0, 0, 0, 0, 0, 0]

/-- The counterexample snapshot: full 20-day histories, no L1 ticks. -/
def cxSnapshot : MarketSnapshot := ⟨some cxCloses, some cxZeros, none, none⟩

/-- The statistics the engine computes on `cxSnapshot`: spread history =
UMAC closes, current spread 21, mean 2, population variance
380 / 20 = 19 (while the ddof=1 sample variance is 380 / 19 = 20). -/
def cxStats : SpreadStats := ⟨cxCloses, 21, 2, 19, 21, 0⟩

/-- On the counterexample snapshot the aligned spread history is exactly the
UMAC close list. -/
lemma cx_aligned : alignedSpreads defaultConfig cxSnapshot = cxCloses := by
  unfold alignedSpreads
  norm_num [cxSnapshot, cxCloses, cxZeros, defaultConfig]

/-- The counterexample spread mean: 40 / 20 = 2. -/
lemma cx_mean : listMean cxCloses = 2 := by
  rw [listMean]
  norm_num [cxCloses]

/-- The counterexample population variance: 380 / 20 = 19. -/
lemma cx_var : popVar cxCloses = 19 := by
  rw [popVar, cx_mean]
  norm_num [cxCloses]

/-- The counterexample ddof=1 sample variance: 380 / 19 = 20. -/
lemma cx_sampleVar : sampleVar cxCloses = 20 := by
  rw [sampleVar, cx_mean]
  norm_num [cxCloses]

/-- The engine's statistics phase on the counterexample snapshot. -/
lemma cx_phase : spreadStatsPhase defaultConfig cxSnapshot = some cxStats := by
  have hmean : cxCloses.sum / (cxCloses.length : ℚ) = 2 := cx_mean
  have hvar : ((cxCloses.map fun sp =>
      (sp - cxCloses.sum / (cxCloses.length : ℚ)) ^ 2).sum) /
      (cxCloses.length : ℚ) = 19 := by
    rw [hmean]
    have hv := cx_var
    rw [popVar, cx_mean] at hv
    exact hv
  show (if cxCloses.length < defaultConfig.lookback_period then none else _) =
    some cxStats
  rw [if_neg (by norm_num [cxCloses, defaultConfig])]
  show (if cxZeros.length < defaultConfig.lookback_period then none else _) =
    some cxStats
  rw [if_neg (by norm_num [cxZeros, defaultConfig])]
  show (if min cxCloses.length cxZeros.length < defaultConfig.lookback_period
      then none else _) = some cxStats
  rw [if_neg (by norm_num [cxCloses, cxZeros, defaultConfig])]
  show (if ((alignedSpreads defaultConfig cxSnapshot).map fun sp =>
        (sp - (alignedSpreads defaultConfig cxSnapshot).sum /
          ((alignedSpreads defaultConfig cxSnapshot).length : ℚ)) ^ 2).sum /
        ((alignedSpreads defaultConfig cxSnapshot).length : ℚ) = 0
      then none else _) = some cxStats
  rw [cx_aligned]
  rw [if_neg (by rw [hvar]; norm_num)]
  norm_num [cxSnapshot, cxStats, hvar, hmean, defaultConfig, cxCloses, cxZeros]

/-- C1 counterexample: on a full 20-day history the engine's Z-score
denominator squared is the population variance 19 (`np.std`, divisor L),
not the spec's ddof=1 sample variance 20 (divisor L-1); the two standard
deviations differ, and so do the resulting Z-scores. -/
theorem zscore_ddof_counterexample :
    spreadStatsPhase defaultConfig cxSnapshot = some cxStats ∧
    cxStats.spread_history.length = defaultConfig.lookback_period ∧
    cxStats.spread_var = 19 ∧
    sampleVar cxStats.spread_history = 20 ∧
    Real.sqrt ((cxStats.spread_var : ℚ) : ℝ) ≠
      Real.sqrt ((sampleVar cxStats.spread_history : ℚ) : ℝ) ∧
    ((cxStats.current_spread - cxStats.spread_mean : ℚ) : ℝ) /
        Real.sqrt ((cxStats.spread_var : ℚ) : ℝ) ≠
      ((cxStats.current_spread - cxStats.spread_mean : ℚ) : ℝ) /
        Real.sqrt ((sampleVar cxStats.spread_history : ℚ) : ℝ) := by
  have hsv : sampleVar cxStats.spread_history = 20 := cx_sampleVar
  have e1 : ((cxStats.current_spread - cxStats.spread_mean : ℚ) : ℝ) = 19 := by
    norm_num [cxStats]
  have e2 : ((cxStats.spread_var : ℚ) : ℝ) = 19 := by
    norm_num [cxStats]
  have e3 : ((sampleVar cxStats.spread_history : ℚ) : ℝ) = 20 := by
    rw [hsv]
    norm_num
  have hlt : Real.sqrt 19 < Real.sqrt 20 :=
    Real.sqrt_lt_sqrt (by norm_num) (by norm_num)
  have hs19 : (0 : ℝ) < Real.sqrt 19 := Real.sqrt_pos.mpr (by norm_num)
  refine ⟨cx_phase, by norm_num [cxStats, cxCloses, defaultConfig], rfl, hsv, ?_, ?_⟩
  · rw [e2, e3]
    exact ne_of_lt hlt
  · rw [e1, e2, e3]
    have hdiv : (19 : ℝ) / Real.sqrt 20 < 19 / Real.sqrt 19 :=
      div_lt_div_of_pos_left (by norm_num) hs19 hlt
    exact ne_of_gt hdiv

/-- C1 amended: for every decision cycle that reaches the Z-score, the
spread mean is `np.mean` and the Z-score denominator squared is the
population variance with divisor `L` (`np.std` with its default `ddof=0`,
not the spec's `L-1`); the variance is strictly positive, `var * L`
recovers the sum of squared deviations from the mean, and each threshold
comparison the engine performs is exactly the real comparison against the
unclamped `Z = (current_spread - mean) / sqrt var`. -/
theorem zscore_denominator_population (cfg : StratConfig) (m : MarketSnapshot)
    (st : SpreadStats) (h : spreadStatsPhase cfg m = some st) :
    st.spread_history = alignedSpreads cfg m ∧
    st.spread_mean = listMean st.spread_history ∧
    st.spread_var = popVar st.spread_history ∧
    0 < st.spread_var ∧
    st.spread_var * (st.spread_history.length : ℚ) =
      ((st.spread_history.map fun sp => (sp - st.spread_mean) ^ 2).sum) ∧
    (∀ t : ℚ, zscoreGT (st.current_spread - st.spread_mean) st.spread_var t = true ↔
      (t : ℝ) < ((st.current_spread - st.spread_mean : ℚ) : ℝ) /
        Real.sqrt ((st.spread_var : ℚ) : ℝ)) ∧
    (∀ t : ℚ, zscoreLT (st.current_spread - st.spread_mean) st.spread_var t = true ↔
      ((st.current_spread - st.spread_mean : ℚ) : ℝ) /
        Real.sqrt ((st.spread_var : ℚ) : ℝ) < (t : ℝ)) := by
  obtain ⟨h1, h2, h3, h4⟩ := spreadStatsPhase_some cfg m st h
  have hlen : (st.spread_history.length : ℚ) ≠ 0 := by
    intro hc
    rw [h3, popVar, h1] at h4
    rw [h1] at hc
    rw [hc, div_zero] at h4
    exact lt_irrefl 0 h4
  refine ⟨h1, h2, h3, h4, ?_, ?_, ?_⟩
  · rw [h3, h2, popVar, div_mul_cancel₀ _ hlen]
  · intro t
    exact zscoreGT_iff_real (st.current_spread - st.spread_mean) st.spread_var t h4
  · intro t
    exact zscoreLT_iff_real (st.current_spread - st.spread_mean) st.spread_var t h4

/-- Witness for `zscore_denominator_population` on the counterexample
snapshot: the recorded variance is the population variance of the history,
evaluating to 19. -/
theorem zscore_denominator_population_witness :
    cxStats.spread_var = popVar cxStats.spread_history ∧ cxStats.spread_var = 19 :=
  ⟨(zscore_denominator_population defaultConfig cxSnapshot cxStats cx_phase).2.2.1,
   rfl⟩

/-! ## The analytics session loader (claim C10) -/

/-- A session produced for a group date carries that date. -/
lemma session_date (rows : List TradeRow) (d : ℕ) (sess : PairsSession)
    (h : sessionForDate rows d = some sess) : sess.date = d := by
  unfold sessionForDate at h
  simp only [] at h
  repeat' split at h
  any_goals exact Option.noConfusion h
  rw [Option.some_inj] at h
  subst h
  rfl

/-- A date yields a session exactly when its UMAC filter and its RCAT filter
each hold a single row (`len(umac_trade) == 1 and len(rcat_trade) == 1`). -/
lemma sessionForDate_isSome (rows : List TradeRow) (d : ℕ) :
    (sessionForDate rows d).isSome = true ↔
      (rows.filter fun r => dateOf r.entry_time == d && r.symbol == "UMAC").length = 1 ∧
      (rows.filter fun r => dateOf r.entry_time == d && r.symbol == "RCAT").length = 1 := by
  unfold sessionForDate
  simp only []
  rcases h1 : rows.filter (fun r => dateOf r.entry_time == d && r.symbol == "UMAC")
    with _ | ⟨u, _ | ⟨u2, us⟩⟩ <;>
  rcases h2 : rows.filter (fun r => dateOf r.entry_time == d && r.symbol == "RCAT")
    with _ | ⟨r, _ | ⟨r2, rs⟩⟩ <;>
    rw [h1, h2] <;> (try simp) <;> omega

/-- Counting sessions of a given date in a `filterMap` over distinct dates:
one when the date is listed and produces a session, zero otherwise. -/
lemma filter_filterMap_count (f : ℕ → Option PairsSession)
    (hf : ∀ a sess, f a = some sess → sess.date = a) :
    ∀ (l : List ℕ), l.Nodup → ∀ d : ℕ,
      ((l.filterMap f).filter fun sess => sess.date == d).length =
        if d ∈ l ∧ (f d).isSome = true then 1 else 0 := by
  intro l
  induction l with
  | nil =>
    intro _ d
    simp
  | cons a t ih =>
    intro hnd d
    obtain ⟨hna, hnt⟩ := List.nodup_cons.mp hnd
    rcases hfa : f a with _ | sess
    · rw [List.filterMap_cons_none hfa, ih hnt d]
      by_cases hda : d = a
      · subst hda
        simp [hna, hfa]
      · simp [hda]
    · rw [List.filterMap_cons_some hfa]
      have hdate : sess.date = a := hf a sess hfa
      by_cases hda : d = a
      · subst hda
        rw [List.filter_cons]
        simp only [hdate, beq_self_eq_true, if_pos]
        rw [List.length_cons, ih hnt d]
        simp [hna, hfa]
      · rw [List.filter_cons]
        have hne : (sess.date == d) = false := by
          simp [hdate]
          omega
        rw [hne]
        simp only [Bool.false_eq_true, if_neg, not_false_iff, if_false]
        rw [ih hnt d]
        simp [hda]

/-- The sorted deduplicated group keys list exactly the entry dates
occurring in the ledger. -/
lemma mem_entryDates (rows : List TradeRow) (d : ℕ) :
    d ∈ entryDates rows ↔ d ∈ rows.map fun r => dateOf r.entry_time := by
  rw [entryDates, List.mem_mergeSort, List.mem_dedup]

/-- The group keys are distinct. -/
lemma entryDates_nodup (rows : List TradeRow) : (entryDates rows).Nodup := by
  rw [entryDates]
  exact ((List.mergeSort_perm _ _).nodup_iff).mpr (List.nodup_dedup _)

/-- A date whose UMAC filter holds exactly one row occurs among the ledger's
entry dates. -/
lemma mem_dates_of_umac_count (rows : List TradeRow) (d : ℕ)
    (h : (rows.filter fun r =>
      dateOf r.entry_time == d && r.symbol == "UMAC").length = 1) :
    d ∈ rows.map fun r => dateOf r.entry_time := by
  have hne : rows.filter (fun r => dateOf r.entry_time == d && r.symbol == "UMAC") ≠ [] := by
    intro hc
    rw [hc] at h
    simp at h
  obtain ⟨r, hr⟩ := List.exists_mem_of_ne_nil _ hne
  have hmem := List.mem_filter.mp hr
  have hd : dateOf r.entry_time = d := by
    have h2 := hmem.2
    simp only [Bool.and_eq_true, beq_iff_eq] at h2
    exact h2.1
  exact List.mem_map.mpr ⟨r, hmem.1, hd⟩

/-- C10: the loader builds exactly one pairs session for an entry date with
exactly one UMAC row and exactly one RCAT row, and none for any other
multiplicity (such dates are silently dropped); and every built session
whose deployed capital is not positive carries return 0. -/
theorem sessions_exactly_one_per_qualified_date (rows : List TradeRow) (d : ℕ) :
    (((load_and_process_trades rows).filter fun sess => sess.date == d).length =
      if (rows.filter fun r =>
            dateOf r.entry_time == d && r.symbol == "UMAC").length = 1 ∧
          (rows.filter fun r =>
            dateOf r.entry_time == d && r.symbol == "RCAT").length = 1
      then 1 else 0) ∧
    (∀ sess ∈ load_and_process_trades rows,
      ¬(0 < sess.capital_deployed) → sess.session_return = 0) := by
  constructor
  · rw [load_and_process_trades, filter_filterMap_count (sessionForDate rows)
      (session_date rows) _ (entryDates_nodup rows) d]
    have hiff : (d ∈ entryDates rows ∧ (sessionForDate rows d).isSome = true) ↔
        ((rows.filter fun r =>
            dateOf r.entry_time == d && r.symbol == "UMAC").length = 1 ∧
         (rows.filter fun r =>
            dateOf r.entry_time == d && r.symbol == "RCAT").length = 1) := by
      constructor
      · rintro ⟨-, hsome⟩
        exact (sessionForDate_isSome rows d).mp hsome
      · intro hc
        exact ⟨(mem_entryDates rows d).mpr (mem_dates_of_umac_count rows d hc.1),
          (sessionForDate_isSome rows d).mpr hc⟩
    rw [if_congr hiff rfl rfl]
  · intro sess hmem hcap
    obtain ⟨d', -, hfd⟩ := List.mem_filterMap.mp hmem
    unfold sessionForDate at hfd
    simp only [] at hfd
    repeat' split at hfd
    any_goals exact Option.noConfusion hfd
    rw [Option.some_inj] at hfd
    subst hfd
    rw [mkSession] at hcap ⊢
    simp only [] at hcap ⊢
    rw [if_neg hcap]

/-- A one-day, zero-price ledger used to exercise the loader concretely. -/
def wUmacRow : TradeRow := ⟨"UMAC", 100, 200, 5, 0, 7, 2⟩

/-- The matching RCAT row of the concrete ledger. -/
def wRcatRow : TradeRow := ⟨"RCAT", 100, 200, 5, 0, 3, 1⟩

/-- The concrete ledger loads to its single session. -/
lemma w_load : load_and_process_trades [wUmacRow, wRcatRow] =
    [mkSession 0 wUmacRow wRcatRow] := by
  simp [load_and_process_trades, entryDates, sessionForDate, dateOf,
    wUmacRow, wRcatRow, List.mergeSort]

/-- Witness for `sessions_exactly_one_per_qualified_date`: the zero-price
ledger's session is built and, its capital being 0, carries return 0. -/
theorem sessions_exactly_one_per_qualified_date_witness :
    mkSession 0 wUmacRow wRcatRow ∈
      load_and_process_trades [wUmacRow, wRcatRow] ∧
    (mkSession 0 wUmacRow wRcatRow).session_return = 0 := by
  have hmem : mkSession 0 wUmacRow wRcatRow ∈
      load_and_process_trades [wUmacRow, wRcatRow] := by
    rw [w_load]
    exact List.mem_singleton.mpr rfl
  refine ⟨hmem, ?_⟩
  exact (sessions_exactly_one_per_qualified_date [wUmacRow, wRcatRow] 0).2
    (mkSession 0 wUmacRow wRcatRow) hmem
    (by norm_num [mkSession, wUmacRow, wRcatRow])
